import Mathlib

/-!
Shallow embedding of `src/jelling.c` (freeotp/jelling-linux): a BLE GATT
peripheral that turns bytes written to a characteristic into synthetic
keyboard events on a Linux uinput device, plus the D-Bus object model and
the BlueZ registration handler.

Machine integers are modelled as `Nat` (byte values, key codes, event
types).  The uinput device is modelled as a fault oracle `dev : Nat → Bool`
giving the success of the n-th `write(2)` attempt of a call; the emitted
trace records the events actually written and the `usleep` calls, in
order.
-/

namespace Jelling

/- Constants from <linux/input-event-codes.h> used by jelling.c. -/
def EV_SYN : Nat := 0
def EV_KEY : Nat := 1
def KEY_1 : Nat := 2
def KEY_2 : Nat := 3
def KEY_3 : Nat := 4
def KEY_4 : Nat := 5
def KEY_5 : Nat := 6
def KEY_6 : Nat := 7
def KEY_7 : Nat := 8
def KEY_8 : Nat := 9
def KEY_9 : Nat := 10
def KEY_0 : Nat := 11
def KEY_ENTER : Nat := 28
def KEY_UNKNOWN : Nat := 240

/- #define constants from jelling.c. -/
def MAN_PATH : String := "/"
def ADV_PATH : String := "/adv"
def SVC_PATH : String := "/svc"
def CHR_PATH : String := "/svc/chr"
def SVC_UUID : String := "B670003C-0079-465C-9BA7-6C0539CCD67F"
def CHR_UUID : String := "F4186B06-D796-4327-AF39-AC22C50BDCA8"

/-- `char2key` from jelling.c: the switch mapping ASCII digit bytes
(48 = char 0 … 57 = char 9) to Linux key codes, everything else to
`KEY_UNKNOWN`. -/
def char2key (c : Nat) : Nat :=
  if c = 48 then KEY_0
  else if c = 49 then KEY_1
  else if c = 50 then KEY_2
  else if c = 51 then KEY_3
  else if c = 52 then KEY_4
  else if c = 53 then KEY_5
  else if c = 54 then KEY_6
  else if c = 55 then KEY_7
  else if c = 56 then KEY_8
  else if c = 57 then KEY_9
  else KEY_UNKNOWN

/-- A `struct input_event` as initialised by `event` in jelling.c
(only `type`, `code`, `value` are ever set; the rest is zero). -/
structure InputEvent where
  type : Nat
  code : Nat
  value : Nat
  deriving DecidableEq, Repr

/-- The `{ .type = EV_SYN }` designated initialiser: all other fields 0. -/
def synEv : InputEvent := ⟨EV_SYN, 0, 0⟩

/-- The `{ .type = EV_KEY, .code = k, .value = down }` initialiser. -/
def keyEv (k : Nat) (down : Bool) : InputEvent :=
  ⟨EV_KEY, k, if down then 1 else 0⟩

/-- One step of the observable behaviour of `event`: a successful
`write(2)` of an input event to the uinput fd, or a `usleep` call. -/
inductive Action where
  | write (e : InputEvent)
  | sleep (usec : Nat)
  deriving DecidableEq, Repr

/-- The local `evts` array of `event` in jelling.c, cut by the loop
condition `evts[i].code != KEY_UNKNOWN`: the loop stops at the first
event whose code is `KEY_UNKNOWN`, so the key event is skipped for the
sentinel key. -/
def eventWrites (k : Nat) (down : Bool) : List InputEvent :=
  ([synEv, keyEv k down]).takeWhile (fun e => e.code != KEY_UNKNOWN)

/-- The write loop of `event`: attempt to `write(2)` each event in order;
a failed write (modelled by the oracle `dev` at the current attempt
counter `n`) returns `-errno` immediately and emits nothing further. -/
def writeSeq (dev : Nat → Bool) (n : Nat) :
    List InputEvent → Except Unit Unit × List Action × Nat
  | [] => (Except.ok (), [], n)
  | e :: rest =>
    if dev n then
      match writeSeq dev (n + 1) rest with
      | (r, tr, m) => (r, Action.write e :: tr, m)
    else (Except.error (), [], n + 1)

/-- The `down = false` arm of `event` in jelling.c: write the events,
then `usleep(50000)` and return 0. -/
def eventUp (dev : Nat → Bool) (n : Nat) (k : Nat) :
    Except Unit Unit × List Action × Nat :=
  match writeSeq dev n (eventWrites k false) with
  | (Except.error e, tr, m) => (Except.error e, tr, m)
  | (Except.ok _, tr, m) => (Except.ok (), tr ++ [Action.sleep 50000], m)

/-- `event` from jelling.c: write the sync event and (unless the code is
`KEY_UNKNOWN`) the key event, `usleep(50000)`, and when `down` recurse
once to emit the matching release. -/
def event (dev : Nat → Bool) (n : Nat) (k : Nat) (down : Bool) :
    Except Unit Unit × List Action × Nat :=
  if down then
    match writeSeq dev n (eventWrites k true) with
    | (Except.error e, tr, m) => (Except.error e, tr, m)
    | (Except.ok _, tr, m) =>
      match eventUp dev m k with
      | (r2, tr2, m2) => (r2, tr ++ Action.sleep 50000 :: tr2, m2)
  else eventUp dev n k

/-- The emission loop of `chr_writevalue`:
`for (i = 0; i < size && r >= 0; i++) r = event(*input, char2key(bytes[i]), true)`. -/
def emitLoop (dev : Nat → Bool) (n : Nat) :
    List Nat → Except Unit Unit × List Action × Nat
  | [] => (Except.ok (), [], n)
  | b :: rest =>
    match event dev n (char2key b) true with
    | (Except.error e, tr, m) => (Except.error e, tr, m)
    | (Except.ok _, tr, m) =>
      match emitLoop dev m rest with
      | (r2, tr2, m2) => (r2, tr ++ tr2, m2)

/-- The reply a method handler sends to the remote caller: the empty
success reply (`sd_bus_reply_method_return(m, "")`) or an error reply
with the given error name. -/
inductive Reply where
  | methodReturn
  | methodError (name : String)
  deriving DecidableEq, Repr

/-- `chr_writevalue` from jelling.c, after the message has been parsed
into its byte array: length check, validation pass, emission of each
digit key, the Enter key, and the `KEY_UNKNOWN` sentinel, with the
error mapping of the source. -/
def chr_writevalue (dev : Nat → Bool) (bytes : List Nat) :
    Reply × List Action :=
  if bytes.length = 0 ∨ bytes.length > 32 then
    (Reply.methodError "org.bluez.Error.InvalidValueLength", [])
  else if bytes.any (fun b => char2key b == KEY_UNKNOWN) then
    (Reply.methodError "org.bluez.Error.NotPermitted", [])
  else
    match emitLoop dev 0 bytes with
    | (Except.error _, tr, _) =>
      (Reply.methodError "org.bluez.Error.Failed", tr)
    | (Except.ok _, tr, n) =>
      match event dev n KEY_ENTER true with
      | (Except.error _, tr2, _) =>
        (Reply.methodError "org.bluez.Error.Failed", tr ++ tr2)
      | (Except.ok _, tr2, n2) =>
        match event dev n2 KEY_UNKNOWN false with
        | (Except.error _, tr3, _) =>
          (Reply.methodError "org.bluez.Error.Failed", tr ++ tr2 ++ tr3)
        | (Except.ok _, tr3, _) =>
          (Reply.methodReturn, tr ++ tr2 ++ tr3)

/-- The all-writes-succeed device oracle. -/
def devOk : Nat → Bool := fun _ => true

/-- The events actually written to the device in a trace. -/
def writesOf (tr : List Action) : List InputEvent :=
  tr.filterMap (fun a =>
    match a with
    | Action.write e => some e
    | Action.sleep _ => none)

/-- A byte maps to a digit key exactly when it is ASCII 0 through 9. -/
theorem char2key_eq_unknown_iff (b : Nat) :
    char2key b = KEY_UNKNOWN ↔ ¬(48 ≤ b ∧ b ≤ 57) := by
  unfold char2key KEY_UNKNOWN KEY_0 KEY_1 KEY_2 KEY_3 KEY_4 KEY_5 KEY_6
    KEY_7 KEY_8 KEY_9
  split_ifs <;> omega

theorem char2key_digit {b : Nat} (h1 : 48 ≤ b) (h2 : b ≤ 57) :
    char2key b ≠ KEY_UNKNOWN := by
  rw [ne_eq, char2key_eq_unknown_iff]
  omega

/-- C2: a written byte sequence of length 0 or greater than 32 yields the
remote error InvalidValueLength and an empty emission trace (no device
write and no sleep happens at all), whatever the device would do. -/
theorem writevalue_invalid_length (dev : Nat → Bool) (bytes : List Nat)
    (h : bytes.length = 0 ∨ bytes.length > 32) :
    chr_writevalue dev bytes =
      (Reply.methodError "org.bluez.Error.InvalidValueLength", []) := by
  unfold chr_writevalue
  rw [if_pos h]

/-- Witness for C2 at the empty sequence and at a 33-byte sequence. -/
theorem writevalue_invalid_length_witness :
    chr_writevalue devOk [] =
      (Reply.methodError "org.bluez.Error.InvalidValueLength", []) ∧
    chr_writevalue devOk (List.replicate 33 49) =
      (Reply.methodError "org.bluez.Error.InvalidValueLength", []) :=
  ⟨writevalue_invalid_length devOk [] (by simp),
   writevalue_invalid_length devOk (List.replicate 33 49) (by simp)⟩

/-- C3: a written byte sequence of valid length that contains any byte
outside ASCII 0 through 9 yields the remote error NotPermitted and an
empty emission trace: the validation pass rejects the whole buffer
before any emission begins, whatever the device would do. -/
theorem writevalue_invalid_char (dev : Nat → Bool) (bytes : List Nat)
    (h1 : 1 ≤ bytes.length) (h2 : bytes.length ≤ 32)
    (h3 : ∃ b ∈ bytes, ¬(48 ≤ b ∧ b ≤ 57)) :
    chr_writevalue dev bytes =
      (Reply.methodError "org.bluez.Error.NotPermitted", []) := by
  unfold chr_writevalue
  rw [if_neg (by omega)]
  rw [if_pos]
  obtain ⟨b, hb, hbad⟩ := h3
  have : char2key b = KEY_UNKNOWN := (char2key_eq_unknown_iff b).mpr hbad
  simp only [List.any_eq_true]
  exact ⟨b, hb, by simp [this]⟩

/-- Witness for C3 at the sequence "12a4" (bytes 49 50 97 52). -/
theorem writevalue_invalid_char_witness :
    chr_writevalue devOk [49, 50, 97, 52] =
      (Reply.methodError "org.bluez.Error.NotPermitted", []) :=
  writevalue_invalid_char devOk [49, 50, 97, 52] (by simp) (by simp)
    ⟨97, by simp, by omega⟩

/-- The trace of one successful `event(input, k, true)` call: press,
hold, release, hold, each write led by its sync event. -/
def pressRelease (k : Nat) : List Action :=
  [Action.write synEv, Action.write (keyEv k true), Action.sleep 50000,
   Action.write synEv, Action.write (keyEv k false), Action.sleep 50000]

theorem writeSeq_devOk (es : List InputEvent) (n : Nat) :
    writeSeq devOk n es =
      (Except.ok (), es.map Action.write, n + es.length) := by
  induction es generalizing n with
  | nil => simp [writeSeq]
  | cons e rest ih =>
    rw [writeSeq]
    simp only [devOk, if_true, ih]
    simp [Nat.add_comm, Nat.add_assoc]
    omega

theorem eventWrites_key {k : Nat} (hk : k ≠ KEY_UNKNOWN) (down : Bool) :
    eventWrites k down = [synEv, keyEv k down] := by
  have hb : (k != 240) = true := by
    simpa [KEY_UNKNOWN] using hk
  simp [eventWrites, List.takeWhile, synEv, keyEv, EV_SYN, EV_KEY,
    KEY_UNKNOWN, hb]

theorem eventWrites_unknown (down : Bool) :
    eventWrites KEY_UNKNOWN down = [synEv] := rfl

theorem eventUp_devOk {k : Nat} (hk : k ≠ KEY_UNKNOWN) (n : Nat) :
    eventUp devOk n k =
      (Except.ok (),
       [Action.write synEv, Action.write (keyEv k false), Action.sleep 50000],
       n + 2) := by
  rw [eventUp, eventWrites_key hk, writeSeq_devOk]
  simp

theorem event_devOk_down {k : Nat} (hk : k ≠ KEY_UNKNOWN) (n : Nat) :
    event devOk n k true = (Except.ok (), pressRelease k, n + 4) := by
  rw [event, if_pos rfl, eventWrites_key hk, writeSeq_devOk]
  simp [eventUp_devOk hk, pressRelease]

theorem event_devOk_unknown (n : Nat) :
    event devOk n KEY_UNKNOWN false =
      (Except.ok (), [Action.write synEv, Action.sleep 50000], n + 1) := by
  rw [event, if_neg (by simp), eventUp, eventWrites_unknown, writeSeq_devOk]
  simp

theorem emitLoop_devOk (bytes : List Nat)
    (h : ∀ b ∈ bytes, char2key b ≠ KEY_UNKNOWN) (n : Nat) :
    emitLoop devOk n bytes =
      (Except.ok (),
       (bytes.map (fun b => pressRelease (char2key b))).flatten,
       n + 4 * bytes.length) := by
  induction bytes generalizing n with
  | nil => simp [emitLoop]
  | cons b rest ih =>
    rw [emitLoop, event_devOk_down (h b (by simp))]
    simp [ih (fun x hx => h x (by simp [hx]))]
    omega

/-- The successful emission trace as the specification words it: for each
byte in input order, a key-down of the corresponding digit key, the fixed
50 ms hold, then the key-up, each write led by its sync event; after the
full sequence the same down-hold-up pair for the Enter key; finally the
sentinel step, a single sync write and hold.  Written from the spec for
comparison with `chr_writevalue`. -/
def specSuccessEmission (bytes : List Nat) : List Action :=
  (bytes.map (fun b =>
    [Action.write synEv, Action.write (keyEv (char2key b) true),
     Action.sleep 50000,
     Action.write synEv, Action.write (keyEv (char2key b) false),
     Action.sleep 50000])).flatten
  ++ [Action.write synEv, Action.write (keyEv KEY_ENTER true),
      Action.sleep 50000,
      Action.write synEv, Action.write (keyEv KEY_ENTER false),
      Action.sleep 50000]
  ++ [Action.write synEv, Action.sleep 50000]

theorem any_unknown_false {bytes : List Nat}
    (hdig : ∀ b ∈ bytes, char2key b ≠ KEY_UNKNOWN) :
    bytes.any (fun b => char2key b == KEY_UNKNOWN) = false := by
  rw [List.any_eq_false]
  intro b hb
  simpa using hdig b hb

/-- The complete run of `chr_writevalue` on valid digits with every
device write succeeding. -/
theorem chr_writevalue_devOk_eq (bytes : List Nat)
    (h1 : 1 ≤ bytes.length) (h2 : bytes.length ≤ 32)
    (hdig : ∀ b ∈ bytes, char2key b ≠ KEY_UNKNOWN) :
    chr_writevalue devOk bytes =
      (Reply.methodReturn,
       (bytes.map (fun b => pressRelease (char2key b))).flatten ++
         (pressRelease KEY_ENTER ++
           [Action.write synEv, Action.sleep 50000])) := by
  unfold chr_writevalue
  rw [if_neg (by omega), if_neg (by simp [any_unknown_false hdig]),
    emitLoop_devOk bytes hdig 0]
  simp [event_devOk_down (show KEY_ENTER ≠ KEY_UNKNOWN by decide),
    event_devOk_unknown]

/-- C4: on a valid sequence of 1 to 32 ASCII digits, with every device
write succeeding, WriteValue emits for each byte in input order a
key-down then key-up of the corresponding digit key, then a down/up pair
for the Enter key, with the 50 ms hold between each press and its
release before the next press, and returns the empty success reply. -/
theorem writevalue_success_emission (bytes : List Nat)
    (h1 : 1 ≤ bytes.length) (h2 : bytes.length ≤ 32)
    (h3 : ∀ b ∈ bytes, 48 ≤ b ∧ b ≤ 57) :
    chr_writevalue devOk bytes =
      (Reply.methodReturn, specSuccessEmission bytes) := by
  have hdig : ∀ b ∈ bytes, char2key b ≠ KEY_UNKNOWN := fun b hb =>
    char2key_digit (h3 b hb).1 (h3 b hb).2
  rw [chr_writevalue_devOk_eq bytes h1 h2 hdig]
  simp [specSuccessEmission, pressRelease]

/-- Witness for C4 at the sequence "12" (bytes 49 50). -/
theorem writevalue_success_emission_witness :
    chr_writevalue devOk [49, 50] =
      (Reply.methodReturn, specSuccessEmission [49, 50]) :=
  writevalue_success_emission [49, 50] (by simp) (by simp) (by decide)

/-- C9: on a successful WriteValue the run after the Enter release is the
single sentinel step `event(input, KEY_UNKNOWN, false)`: it writes
exactly one sync event and no key event (the write loop stops at the
`KEY_UNKNOWN` code), so the success trace ends with a trailing sync
write, with no further key press or release. -/
theorem writevalue_sentinel_step (bytes : List Nat) (n : Nat)
    (h1 : 1 ≤ bytes.length) (h2 : bytes.length ≤ 32)
    (h3 : ∀ b ∈ bytes, 48 ≤ b ∧ b ≤ 57) :
    event devOk n KEY_UNKNOWN false =
      (Except.ok (), [Action.write synEv, Action.sleep 50000], n + 1) ∧
    writesOf [Action.write synEv, Action.sleep 50000] = [synEv] ∧
    synEv.type = EV_SYN ∧ synEv.type ≠ EV_KEY ∧
    (chr_writevalue devOk bytes).2 =
      ((bytes.map (fun b => pressRelease (char2key b))).flatten ++
        pressRelease KEY_ENTER) ++
        [Action.write synEv, Action.sleep 50000] := by
  have hdig : ∀ b ∈ bytes, char2key b ≠ KEY_UNKNOWN := fun b hb =>
    char2key_digit (h3 b hb).1 (h3 b hb).2
  refine ⟨event_devOk_unknown n, rfl, rfl, by decide, ?_⟩
  rw [chr_writevalue_devOk_eq bytes h1 h2 hdig]
  simp

/-- Witness for C9 at the sequence "1" (byte 49) and counter 0. -/
theorem writevalue_sentinel_step_witness :
    event devOk 0 KEY_UNKNOWN false =
      (Except.ok (), [Action.write synEv, Action.sleep 50000], 0 + 1) ∧
    writesOf [Action.write synEv, Action.sleep 50000] = [synEv] ∧
    synEv.type = EV_SYN ∧ synEv.type ≠ EV_KEY ∧
    (chr_writevalue devOk [49]).2 =
      (([49].map (fun b => pressRelease (char2key b))).flatten ++
        pressRelease KEY_ENTER) ++
        [Action.write synEv, Action.sleep 50000] :=
  writevalue_sentinel_step [49] 0 (by simp) (by simp) (by decide)

/-- The write loop either writes every event, or fails after writing a
proper prefix of them. -/
theorem writeSeq_cases (dev : Nat → Bool) (es : List InputEvent) (n : Nat) :
    (∃ m, writeSeq dev n es = (Except.ok (), es.map Action.write, m)) ∨
    (∃ j m, j < es.length ∧
      writeSeq dev n es =
        (Except.error (), (es.take j).map Action.write, m)) := by
  induction es generalizing n with
  | nil => exact Or.inl ⟨n, rfl⟩
  | cons e rest ih =>
    by_cases hd : dev n = true
    · rcases ih (n + 1) with ⟨m, hm⟩ | ⟨j, m, hj, hm⟩
      · left
        refine ⟨m, ?_⟩
        rw [writeSeq, if_pos hd, hm]
        simp
      · right
        refine ⟨j + 1, m, by simpa using hj, ?_⟩
        rw [writeSeq, if_pos hd, hm]
        simp
    · right
      refine ⟨0, n + 1, by simp, ?_⟩
      rw [writeSeq, if_neg hd]
      simp

/-- Scan of a write trace checking that every EV_KEY event is directly
preceded by an EV_SYN event; `prev` is the event written just before the
remaining list (none at the start of the trace). -/
def keysPrecededGo (prev : Option InputEvent) : List InputEvent → Bool
  | [] => true
  | e :: rest =>
    ((if e.type = EV_KEY then
        match prev with
        | some p => p.type == EV_SYN
        | none => false
      else true) && keysPrecededGo (some e) rest)

/-- Every key event in the list has a sync event directly in front of it. -/
def keysPreceded (l : List InputEvent) : Bool :=
  keysPrecededGo none l

theorem keysPrecededGo_append {p : Option InputEvent}
    {l1 l2 : List InputEvent} (h1 : keysPrecededGo p l1 = true)
    (h2 : ∀ q, keysPrecededGo q l2 = true) :
    keysPrecededGo p (l1 ++ l2) = true := by
  induction l1 generalizing p with
  | nil => simpa using h2 p
  | cons e rest ih =>
    simp only [List.cons_append, keysPrecededGo, Bool.and_eq_true] at h1 ⊢
    exact ⟨h1.1, ih h1.2⟩
theorem writesOf_append (t1 t2 : List Action) :
    writesOf (t1 ++ t2) = writesOf t1 ++ writesOf t2 := by
  simp [writesOf]

theorem writesOf_map_write (l : List InputEvent) :
    writesOf (l.map Action.write) = l := by
  induction l with
  | nil => rfl
  | cons e rest ih =>
    show e :: writesOf (rest.map Action.write) = e :: rest
    rw [ih]

theorem writesOf_cons_sleep (u : Nat) (tr : List Action) :
    writesOf (Action.sleep u :: tr) = writesOf tr := rfl

/-- Every key event in a take-prefix keeps its preceding sync event. -/
theorem keysPrecededGo_take {p : Option InputEvent} {l : List InputEvent}
    (h : keysPrecededGo p l = true) (j : Nat) :
    keysPrecededGo p (l.take j) = true := by
  induction l generalizing p j with
  | nil => cases j <;> rfl
  | cons e rest ih =>
    cases j with
    | zero => rfl
    | succ j =>
      rw [List.take_succ_cons]
      simp only [keysPrecededGo, Bool.and_eq_true] at h ⊢
      exact ⟨h.1, ih h.2 j⟩

/-- The events `event(input, k, down)` writes when every write succeeds:
the cut array of the press phase and, when `down`, also of the release
phase. -/
def evWrites (k : Nat) (down : Bool) : List InputEvent :=
  if down then eventWrites k true ++ eventWrites k false
  else eventWrites k false

/-- The per-byte device writes of the emission loop on full success. -/
def emitWrites (bytes : List Nat) : List InputEvent :=
  (bytes.map (fun b => evWrites (char2key b) true)).flatten

/-- All device writes of a fully successful WriteValue call: the digit
keys, the Enter key, and the sentinel sync event. -/
def successWrites (bytes : List Nat) : List InputEvent :=
  emitWrites bytes ++ evWrites KEY_ENTER true ++ evWrites KEY_UNKNOWN false

theorem eventWrites_ne_nil (k : Nat) (down : Bool) :
    eventWrites k down ≠ [] := by
  by_cases hk : k = KEY_UNKNOWN
  · subst hk
    rw [eventWrites_unknown]
    simp
  · rw [eventWrites_key hk]
    simp

theorem keysPrecededGo_evWrites (k : Nat) (down : Bool)
    (p : Option InputEvent) :
    keysPrecededGo p (evWrites k down) = true := by
  by_cases hk : k = KEY_UNKNOWN
  · subst hk
    cases down with
    | false =>
      rw [evWrites, if_neg (by simp), eventWrites_unknown]
      simp [keysPrecededGo, synEv, EV_SYN, EV_KEY]
    | true =>
      rw [evWrites, if_pos rfl, eventWrites_unknown, eventWrites_unknown]
      simp [keysPrecededGo, synEv, EV_SYN, EV_KEY]
  · cases down with
    | false =>
      rw [evWrites, if_neg (by simp), eventWrites_key hk]
      simp [keysPrecededGo, synEv, keyEv, EV_SYN, EV_KEY]
    | true =>
      rw [evWrites, if_pos rfl, eventWrites_key hk, eventWrites_key hk]
      simp [keysPrecededGo, synEv, keyEv, EV_SYN, EV_KEY]

theorem keysPrecededGo_emitWrites (bytes : List Nat)
    (p : Option InputEvent) :
    keysPrecededGo p (emitWrites bytes) = true := by
  induction bytes generalizing p with
  | nil => rfl
  | cons b rest ih =>
    have hcons : emitWrites (b :: rest) =
        evWrites (char2key b) true ++ emitWrites rest := by
      simp [emitWrites]
    rw [hcons]
    exact keysPrecededGo_append (keysPrecededGo_evWrites _ _ p)
      (fun q => ih q)

theorem keysPrecededGo_successWrites (bytes : List Nat)
    (p : Option InputEvent) :
    keysPrecededGo p (successWrites bytes) = true := by
  unfold successWrites
  rw [List.append_assoc]
  exact keysPrecededGo_append (keysPrecededGo_emitWrites bytes p)
    (fun q => keysPrecededGo_append (keysPrecededGo_evWrites _ _ q)
      (fun q2 => keysPrecededGo_evWrites _ _ q2))

/-- The release half of an event either writes its full event list or
fails leaving a proper prefix of those writes. -/
theorem eventUp_shape (dev : Nat → Bool) (n k : Nat) :
    (∃ m tr, eventUp dev n k = (Except.ok (), tr, m) ∧
      writesOf tr = eventWrites k false) ∨
    (∃ m tr rest, eventUp dev n k = (Except.error (), tr, m) ∧
      rest ≠ [] ∧ writesOf tr ++ rest = eventWrites k false) := by
  rcases writeSeq_cases dev (eventWrites k false) n with
    ⟨m, hm⟩ | ⟨j, m, hj, hm⟩
  · left
    refine ⟨m, (eventWrites k false).map Action.write ++
      [Action.sleep 50000], ?_, ?_⟩
    · simp [eventUp, hm]
    · rw [writesOf_append, writesOf_map_write]
      simp [writesOf]
  · right
    refine ⟨m, ((eventWrites k false).take j).map Action.write,
      (eventWrites k false).drop j, ?_, ?_, ?_⟩
    · simp [eventUp, hm]
    · rw [ne_eq, List.drop_eq_nil_iff]
      omega
    · rw [writesOf_map_write, List.take_append_drop]

/-- A full key event (press and release) either writes its full event
list or fails leaving a proper prefix of those writes. -/
theorem event_shape (dev : Nat → Bool) (n k : Nat) (down : Bool) :
    (∃ m tr, event dev n k down = (Except.ok (), tr, m) ∧
      writesOf tr = evWrites k down) ∨
    (∃ m tr rest, event dev n k down = (Except.error (), tr, m) ∧
      rest ≠ [] ∧ writesOf tr ++ rest = evWrites k down) := by
  cases down with
  | false =>
    have he : event dev n k false = eventUp dev n k := by
      rw [event, if_neg (by simp)]
    rw [he]
    simpa [evWrites] using eventUp_shape dev n k
  | true =>
    have hev : evWrites k true = eventWrites k true ++ eventWrites k false := by
      rw [evWrites, if_pos rfl]
    rcases writeSeq_cases dev (eventWrites k true) n with
      ⟨m, hm⟩ | ⟨j, m, hj, hm⟩
    · rcases eventUp_shape dev m k with
        ⟨m2, tr2, h2, hw2⟩ | ⟨m2, tr2, rest2, h2, hne2, hw2⟩
      · left
        refine ⟨m2, (eventWrites k true).map Action.write ++
          Action.sleep 50000 :: tr2, ?_, ?_⟩
        · simp [event, hm, h2]
        · rw [writesOf_append, writesOf_map_write, writesOf_cons_sleep,
            hw2, hev]
      · right
        refine ⟨m2, (eventWrites k true).map Action.write ++
          Action.sleep 50000 :: tr2, rest2, ?_, hne2, ?_⟩
        · simp [event, hm, h2]
        · rw [writesOf_append, writesOf_map_write, writesOf_cons_sleep,
            List.append_assoc, hw2, hev]
    · right
      refine ⟨m, ((eventWrites k true).take j).map Action.write,
        (eventWrites k true).drop j ++ eventWrites k false, ?_, ?_, ?_⟩
      · simp [event, hm]
      · simp [eventWrites_ne_nil]
      · rw [writesOf_map_write, ← List.append_assoc,
          List.take_append_drop, hev]

/-- The emission loop either writes every event of every byte or fails
leaving a proper prefix of those writes. -/
theorem emitLoop_shape (dev : Nat → Bool) (n : Nat) (bytes : List Nat) :
    (∃ m tr, emitLoop dev n bytes = (Except.ok (), tr, m) ∧
      writesOf tr = emitWrites bytes) ∨
    (∃ m tr rest, emitLoop dev n bytes = (Except.error (), tr, m) ∧
      rest ≠ [] ∧ writesOf tr ++ rest = emitWrites bytes) := by
  induction bytes generalizing n with
  | nil => exact Or.inl ⟨n, [], rfl, rfl⟩
  | cons b rest ih =>
    have hcons : emitWrites (b :: rest) =
        evWrites (char2key b) true ++ emitWrites rest := by
      simp [emitWrites]
    rcases event_shape dev n (char2key b) true with
      ⟨m, tr, he, hw⟩ | ⟨m, tr, r0, he, hne, hw⟩
    · rcases ih m with ⟨m2, tr2, hl, hw2⟩ | ⟨m2, tr2, r2, hl, hne2, hw2⟩
      · left
        refine ⟨m2, tr ++ tr2, ?_, ?_⟩
        · simp [emitLoop, he, hl]
        · rw [writesOf_append, hw, hw2, hcons]
      · right
        refine ⟨m2, tr ++ tr2, r2, ?_, hne2, ?_⟩
        · simp [emitLoop, he, hl]
        · rw [writesOf_append, hw, List.append_assoc, hw2, hcons]
    · right
      refine ⟨m, tr, r0 ++ emitWrites rest, ?_, ?_, ?_⟩
      · simp [emitLoop, he]
      · simp [hne]
      · rw [← List.append_assoc, hw, hcons]

/-- A WriteValue call succeeds having written exactly the full event
sequence, or rejects the input having written nothing, or fails having
written a proper prefix of the full event sequence. -/
theorem chr_writevalue_shape (dev : Nat → Bool) (bytes : List Nat) :
    (∃ tr, chr_writevalue dev bytes = (Reply.methodReturn, tr) ∧
      writesOf tr = successWrites bytes) ∨
    ((bytes.length = 0 ∨ bytes.length > 32 ∨
        ∃ b ∈ bytes, char2key b = KEY_UNKNOWN) ∧
      (chr_writevalue dev bytes).2 = []) ∨
    (∃ tr rest, chr_writevalue dev bytes =
        (Reply.methodError "org.bluez.Error.Failed", tr) ∧
      rest ≠ [] ∧ writesOf tr ++ rest = successWrites bytes) := by
  by_cases hlen : bytes.length = 0 ∨ bytes.length > 32
  · refine Or.inr (Or.inl ⟨?_, ?_⟩)
    · rcases hlen with h | h
      · exact Or.inl h
      · exact Or.inr (Or.inl h)
    · unfold chr_writevalue
      rw [if_pos hlen]
  by_cases hany : bytes.any (fun b => char2key b == KEY_UNKNOWN) = true
  · refine Or.inr (Or.inl ⟨?_, ?_⟩)
    · refine Or.inr (Or.inr ?_)
      simpa using hany
    · unfold chr_writevalue
      rw [if_neg hlen, if_pos hany]
  rcases emitLoop_shape dev 0 bytes with
    ⟨m, tr, hl, hw⟩ | ⟨m, tr, r0, hl, hne, hw⟩
  · rcases event_shape dev m KEY_ENTER true with
      ⟨m2, tr2, h2, hw2⟩ | ⟨m2, tr2, r2, h2, hne2, hw2⟩
    · rcases event_shape dev m2 KEY_UNKNOWN false with
        ⟨m3, tr3, h3, hw3⟩ | ⟨m3, tr3, r3, h3, hne3, hw3⟩
      · left
        refine ⟨tr ++ tr2 ++ tr3, ?_, ?_⟩
        · unfold chr_writevalue
          rw [if_neg hlen, if_neg hany]
          simp [hl, h2, h3]
        · rw [writesOf_append, writesOf_append, hw, hw2, hw3,
            successWrites]
      · refine Or.inr (Or.inr ⟨tr ++ tr2 ++ tr3, r3, ?_, hne3, ?_⟩)
        · unfold chr_writevalue
          rw [if_neg hlen, if_neg hany]
          simp [hl, h2, h3]
        · rw [writesOf_append, writesOf_append, hw, hw2,
            List.append_assoc, List.append_assoc, hw3, successWrites,
            List.append_assoc]
    · refine Or.inr (Or.inr ⟨tr ++ tr2,
        r2 ++ evWrites KEY_UNKNOWN false, ?_, ?_, ?_⟩)
      · unfold chr_writevalue
        rw [if_neg hlen, if_neg hany]
        simp [hl, h2]
      · simp [hne2]
      · rw [writesOf_append, hw, List.append_assoc,
          ← List.append_assoc (writesOf tr2), hw2, successWrites,
          List.append_assoc]
  · refine Or.inr (Or.inr ⟨tr,
      r0 ++ (evWrites KEY_ENTER true ++ evWrites KEY_UNKNOWN false),
      ?_, ?_, ?_⟩)
    · unfold chr_writevalue
      rw [if_neg hlen, if_neg hany]
      simp [hl]
    · simp [hne]
    · rw [← List.append_assoc, hw, successWrites, List.append_assoc]

/-- C10: in every emission step the sync event is written to the device
immediately before the key event, so in the trace of any WriteValue call
(any byte sequence, any pattern of device write failures) every key
event written to the device has a sync event directly in front of it. -/
theorem sync_leads_each_key_write (dev : Nat → Bool) (bytes : List Nat) :
    keysPreceded (writesOf (chr_writevalue dev bytes).2) = true := by
  rcases chr_writevalue_shape dev bytes with
    ⟨tr, h, hw⟩ | ⟨hc, h⟩ | ⟨tr, rest, h, hne, hw⟩
  · rw [h]
    show keysPrecededGo none (writesOf tr) = true
    rw [hw]
    exact keysPrecededGo_successWrites bytes none
  · rw [h]
    rfl
  · rw [h]
    show keysPrecededGo none (writesOf tr) = true
    have htake : writesOf tr = (successWrites bytes).take
        (writesOf tr).length := by
      rw [← hw, List.take_left]
    rw [htake]
    exact keysPrecededGo_take (keysPrecededGo_successWrites bytes none) _

/-- C5: if a device write fails partway through emission of a validated
sequence, WriteValue returns the remote error Failed, the events already
written stay written and no further event of the call is emitted (the
written events are a proper prefix of the all-success emission), and the
handler still returns a reply. -/
theorem writevalue_fault_aborts (dev : Nat → Bool) (bytes : List Nat)
    (h1 : 1 ≤ bytes.length) (h2 : bytes.length ≤ 32)
    (h3 : ∀ b ∈ bytes, 48 ≤ b ∧ b ≤ 57)
    (hfail : (chr_writevalue dev bytes).1 ≠ Reply.methodReturn) :
    (chr_writevalue dev bytes).1 =
      Reply.methodError "org.bluez.Error.Failed" ∧
    ∃ rest, rest ≠ [] ∧
      writesOf (chr_writevalue dev bytes).2 ++ rest =
        writesOf (chr_writevalue devOk bytes).2 := by
  have hdig : ∀ b ∈ bytes, char2key b ≠ KEY_UNKNOWN := fun b hb =>
    char2key_digit (h3 b hb).1 (h3 b hb).2
  have hOkW : writesOf (chr_writevalue devOk bytes).2 =
      successWrites bytes := by
    rcases chr_writevalue_shape devOk bytes with
      ⟨tr, h, hw⟩ | ⟨hc, h⟩ | ⟨tr, rest, h, hne, hw⟩
    · rw [h]
      exact hw
    · exfalso
      rcases hc with h0 | h0 | ⟨b, hb, h0⟩
      · omega
      · omega
      · exact hdig b hb h0
    · exfalso
      rw [chr_writevalue_devOk_eq bytes h1 h2 hdig] at h
      simp at h
  rcases chr_writevalue_shape dev bytes with
    ⟨tr, h, hw⟩ | ⟨hc, h⟩ | ⟨tr, rest, h, hne, hw⟩
  · exact absurd (by rw [h]) hfail
  · exfalso
    rcases hc with h0 | h0 | ⟨b, hb, h0⟩
    · omega
    · omega
    · exact hdig b hb h0
  · rw [h]
    refine ⟨rfl, rest, hne, ?_⟩
    rw [hOkW]
    exact hw

/-- Witness for C5: writing "1" with a device that fails from the fourth
write attempt on aborts mid-emission with the Failed error. -/
theorem writevalue_fault_aborts_witness :
    (chr_writevalue (fun i => decide (i < 3)) [49]).1 =
      Reply.methodError "org.bluez.Error.Failed" ∧
    ∃ rest, rest ≠ [] ∧
      writesOf (chr_writevalue (fun i => decide (i < 3)) [49]).2 ++ rest =
        writesOf (chr_writevalue devOk [49]).2 :=
  writevalue_fault_aborts (fun i => decide (i < 3)) [49] (by simp)
    (by simp) (by decide) (by decide)

/- ------------------------------------------------------------------
D-Bus property getters (adv_props, svc_props, chr_props).
------------------------------------------------------------------ -/

/-- A scalar appended inside an array container by the getters: only
strings and object paths ever occur there in jelling.c. -/
inductive BusScalar where
  | str (s : String)
  | objPath (p : String)
  deriving DecidableEq, Repr

/-- A value appended to a property reply message: a string, a boolean,
an object path, or an array container with its element signature. -/
inductive BusValue where
  | str (s : String)
  | boolean (b : Bool)
  | objPath (p : String)
  | arr (sig : String) (elems : List BusScalar)
  deriving DecidableEq, Repr

/-- Result of a property getter: the appended value, or a negative errno
(`-ENOENT` is -2) returned to the bus library. -/
inductive PropResult where
  | ok (v : BusValue)
  | err (errno : Int)
  deriving DecidableEq, Repr

/-- `adv_props` from jelling.c: the LEAdvertisement1 property getter. -/
def adv_props (property : String) : PropResult :=
  if property = "Type" then PropResult.ok (BusValue.str "broadcast")
  else if property = "IncludeTxPower" then
    PropResult.ok (BusValue.boolean true)
  else if property = "ServiceUUIDs" then
    PropResult.ok (BusValue.arr "s" [BusScalar.str SVC_UUID])
  else if property = "SolicitUUIDs" then
    PropResult.ok (BusValue.arr "s" [])
  else if property = "ManufacturerData" then
    PropResult.ok (BusValue.arr "\x7bqay\x7d" [])
  else if property = "ServiceData" then
    PropResult.ok (BusValue.arr "\x7bsay\x7d" [])
  else PropResult.err (-2)

/-- `svc_props` from jelling.c: the GattService1 property getter.  Note
there is no error fallback: any name other than UUID and Primary opens
an object-path array that only the name Characteristics populates. -/
def svc_props (property : String) : PropResult :=
  if property = "UUID" then PropResult.ok (BusValue.str SVC_UUID)
  else if property = "Primary" then PropResult.ok (BusValue.boolean true)
  else
    PropResult.ok (BusValue.arr "o"
      (if property = "Characteristics" then [BusScalar.objPath CHR_PATH]
       else []))

/-- `chr_props` from jelling.c: the GattCharacteristic1 property getter. -/
def chr_props (property : String) : PropResult :=
  if property = "UUID" then PropResult.ok (BusValue.str CHR_UUID)
  else if property = "Service" then
    PropResult.ok (BusValue.objPath SVC_PATH)
  else if property = "Notifying" then
    PropResult.ok (BusValue.boolean false)
  else if property = "Flags" then
    PropResult.ok (BusValue.arr "s"
      [BusScalar.str "encrypt-authenticated-write"])
  else if property = "Descriptors" then
    PropResult.ok (BusValue.arr "o" [])
  else PropResult.err (-2)

/-- Counterexample to C6: the Service getter does not return the
not-found error for a name outside its declared property set; it
returns an empty object-path array instead. -/
theorem svc_props_unknown_returns_value :
    svc_props "Foo" = PropResult.ok (BusValue.arr "o" []) ∧
    svc_props "Foo" ≠ PropResult.err (-2) := by
  constructor
  · rfl
  · decide

/-- C6 (amended), per entity: the Advertisement getter fails with the
not-found error for any name outside its declared property set, and so
does the Characteristic getter for any name outside its own set; the
Service getter never returns the not-found error: for any name other
than UUID, Primary and Characteristics it returns an empty object-path
array. -/
theorem props_unknown_name (p : String) :
    (p ∉ ["Type", "IncludeTxPower", "ServiceUUIDs", "SolicitUUIDs",
        "ManufacturerData", "ServiceData"] →
      adv_props p = PropResult.err (-2)) ∧
    (p ∉ ["UUID", "Service", "Notifying", "Flags", "Descriptors"] →
      chr_props p = PropResult.err (-2)) ∧
    (p ∉ ["UUID", "Primary", "Characteristics"] →
      svc_props p = PropResult.ok (BusValue.arr "o" [])) := by
  refine ⟨fun ha => ?_, fun hc => ?_, fun hs => ?_⟩
  · simp only [List.mem_cons, List.not_mem_nil, or_false, not_or] at ha
    obtain ⟨ha1, ha2, ha3, ha4, ha5, ha6⟩ := ha
    simp [adv_props, ha1, ha2, ha3, ha4, ha5, ha6]
  · simp only [List.mem_cons, List.not_mem_nil, or_false, not_or] at hc
    obtain ⟨hc1, hc2, hc3, hc4, hc5⟩ := hc
    simp [chr_props, hc1, hc2, hc3, hc4, hc5]
  · simp only [List.mem_cons, List.not_mem_nil, or_false, not_or] at hs
    obtain ⟨hs1, hs2, hs3⟩ := hs
    simp [svc_props, hs1, hs2, hs3]

/-- Witness for the amended C6, discharging each per-entity exclusion:
at "Notifying" for the Advertisement (a name another entity declares),
at "Type" for the Characteristic, and at "Includes" for the Service
(a declared Service name outside the populated trio). -/
theorem props_unknown_name_witness :
    adv_props "Notifying" = PropResult.err (-2) ∧
    chr_props "Type" = PropResult.err (-2) ∧
    svc_props "Includes" = PropResult.ok (BusValue.arr "o" []) :=
  ⟨(props_unknown_name "Notifying").1 (by decide),
   (props_unknown_name "Type").2.1 (by decide),
   (props_unknown_name "Includes").2.2 (by decide)⟩

/-- C8: every declared Advertisement and Characteristic property read
returns its fixed constant value (the getters are pure functions of the
property name, so the values cannot change over the process lifetime):
Type is "broadcast", IncludeTxPower is true, ServiceUUIDs is exactly the
one service UUID with SolicitUUIDs, ManufacturerData and ServiceData
empty; the characteristic UUID is fixed, Notifying is false, Flags is
exactly ["encrypt-authenticated-write"] and Descriptors is empty. -/
theorem declared_props_constant :
    adv_props "Type" = PropResult.ok (BusValue.str "broadcast") ∧
    adv_props "IncludeTxPower" = PropResult.ok (BusValue.boolean true) ∧
    adv_props "ServiceUUIDs" = PropResult.ok (BusValue.arr "s"
      [BusScalar.str "B670003C-0079-465C-9BA7-6C0539CCD67F"]) ∧
    adv_props "SolicitUUIDs" = PropResult.ok (BusValue.arr "s" []) ∧
    adv_props "ManufacturerData" =
      PropResult.ok (BusValue.arr "\x7bqay\x7d" []) ∧
    adv_props "ServiceData" =
      PropResult.ok (BusValue.arr "\x7bsay\x7d" []) ∧
    chr_props "UUID" = PropResult.ok
      (BusValue.str "F4186B06-D796-4327-AF39-AC22C50BDCA8") ∧
    chr_props "Notifying" = PropResult.ok (BusValue.boolean false) ∧
    chr_props "Flags" = PropResult.ok (BusValue.arr "s"
      [BusScalar.str "encrypt-authenticated-write"]) ∧
    chr_props "Descriptors" = PropResult.ok (BusValue.arr "o" []) :=
  ⟨rfl, rfl, rfl, rfl, rfl, rfl, rfl, rfl, rfl, rfl⟩

/- ------------------------------------------------------------------
Method handlers and vtables.
------------------------------------------------------------------ -/

/-- `chr_notsup` from jelling.c: set the NotSupported bus error. -/
def chr_notsup : Reply :=
  Reply.methodError "org.bluez.Error.NotSupported"

/-- `meth_noop` from jelling.c: the empty success reply. -/
def meth_noop : Reply := Reply.methodReturn

/-- Which handler function a vtable method entry points at. -/
inductive HandlerRef where
  | notsup
  | writevalue
  | noop
  deriving DecidableEq, Repr

/-- The method rows of `chr_vtable` in jelling.c (the property rows
dispatch to `chr_props`). -/
def chr_vtable_methods : List (String × HandlerRef) :=
  [("ReadValue", HandlerRef.notsup),
   ("WriteValue", HandlerRef.writevalue),
   ("StartNotify", HandlerRef.notsup),
   ("StopNotify", HandlerRef.noop)]

/-- The method row of `adv_vtable` in jelling.c (the property rows
dispatch to `adv_props`). -/
def adv_vtable_methods : List (String × HandlerRef) :=
  [("Release", HandlerRef.noop)]

/-- Run a handler on the message's byte-array argument, returning the
reply and the emission trace. -/
def runHandler (dev : Nat → Bool) (h : HandlerRef) (args : List Nat) :
    Reply × List Action :=
  match h with
  | HandlerRef.notsup => (chr_notsup, [])
  | HandlerRef.noop => (meth_noop, [])
  | HandlerRef.writevalue => chr_writevalue dev args

/-- Dispatch a method call on the characteristic object. -/
def chr_call (dev : Nat → Bool) (member : String) (args : List Nat) :
    Option (Reply × List Action) :=
  (chr_vtable_methods.lookup member).map (fun h => runHandler dev h args)

/-- Dispatch a method call on the advertisement object. -/
def adv_call (dev : Nat → Bool) (member : String) (args : List Nat) :
    Option (Reply × List Action) :=
  (adv_vtable_methods.lookup member).map (fun h => runHandler dev h args)

/-- C7: on every invocation, whatever the arguments, the device state or
the call history (the handlers are stateless), ReadValue and StartNotify
fail with NotSupported, and StopNotify and Advertisement.Release succeed
with the empty reply; none of the four emits any event. -/
theorem fixed_method_replies (dev : Nat → Bool) (args : List Nat) :
    chr_call dev "ReadValue" args =
      some (Reply.methodError "org.bluez.Error.NotSupported", []) ∧
    chr_call dev "StartNotify" args =
      some (Reply.methodError "org.bluez.Error.NotSupported", []) ∧
    chr_call dev "StopNotify" args = some (Reply.methodReturn, []) ∧
    adv_call dev "Release" args = some (Reply.methodReturn, []) :=
  ⟨rfl, rfl, rfl, rfl⟩

/- ------------------------------------------------------------------
BlueZ discovery and registration (on_bt_iface, setup_registration).
------------------------------------------------------------------ -/

/-- An asynchronous registration call issued to org.bluez: the object
path it is sent to, the manager interface, the member, and the object
path passed as argument (the options dict is always empty). -/
structure RegCall where
  path : String
  iface : String
  member : String
  arg : String
  deriving DecidableEq, Repr

/-- The body of the per-interface loop of `on_bt_iface` in jelling.c:
an unconditional RegisterApplication call for every GattManager1
announcement and an unconditional RegisterAdvertisement call for every
LEAdvertisingManager1 announcement — there is no registration state. -/
def ifaceCalls (obj iface : String) : List RegCall :=
  (if iface = "org.bluez.GattManager1" then
    [⟨obj, iface, "RegisterApplication", MAN_PATH⟩] else []) ++
  (if iface = "org.bluez.LEAdvertisingManager1" then
    [⟨obj, iface, "RegisterAdvertisement", ADV_PATH⟩] else [])

/-- `on_bt_iface` from jelling.c applied to a parsed InterfacesAdded
message (or one entry of the GetManagedObjects reply): the registration
calls it issues, in order. -/
def on_bt_iface (obj : String) (ifaces : List String) : List RegCall :=
  (ifaces.map (ifaceCalls obj)).flatten

/-- The discovery events a process lifetime feeds to `on_bt_iface`: each
entry of the startup GetManagedObjects enumeration done by
`setup_registration` and each later InterfacesAdded signal, in order,
all handled identically. -/
def processDiscovery (events : List (String × List String)) :
    List RegCall :=
  (events.map (fun e => on_bt_iface e.1 e.2)).flatten

/-- C1 fails on the code: `on_bt_iface` keeps no registration state, so
when the startup enumeration and a later InterfacesAdded signal both
report the same GattManager1 interface, the identical RegisterApplication
call is issued twice in one process lifetime. -/
theorem registration_duplicated_on_repeated_announcement :
    processDiscovery
      [("/org/bluez/hci0", ["org.bluez.GattManager1"]),
       ("/org/bluez/hci0", ["org.bluez.GattManager1"])] =
      [⟨"/org/bluez/hci0", "org.bluez.GattManager1",
        "RegisterApplication", "/"⟩,
       ⟨"/org/bluez/hci0", "org.bluez.GattManager1",
        "RegisterApplication", "/"⟩] ∧
    (processDiscovery
      [("/org/bluez/hci0", ["org.bluez.GattManager1"]),
       ("/org/bluez/hci0", ["org.bluez.GattManager1"])]).countP
      (fun c => c.member == "RegisterApplication") = 2 := by
  constructor
  · rfl
  · rfl

end Jelling
